import Mathlib

/-!
Verification development for the `bevy_ascii_terminal` grid text-buffer engine.

The Rust sources are embedded shallowly:
* machine integers become `ℕ`/`ℤ` (no claim exercises `i32`/`u32` overflow);
* `f32` arithmetic is idealised as exact rational arithmetic `ℚ`; the Rust
  `as i32` cast (truncation toward zero) becomes `ratTrunc`, and `f32::floor`
  becomes `ratFloor`;
* the `sark_grids::Grid` dependency is a flat row-major `List Tile` with
  index `y * width + x`, origin bottom-left, exactly as the crate documents;
  `Grid::new(size)` fills the grid with `T::default()`;
* in-place mutation becomes functional update; Rust panics on out-of-bounds
  indices, so every theorem about an access carries an in-bounds hypothesis;
* the formatting helpers (`src/fmt_tile.rs`, `src/formatting.rs`) are not in
  the source tree; they are modelled from the spec where noted.
-/

/-! ## Exact rational arithmetic standing in for `f32` -/

/-- Floor of a rational, as used for `f32::floor` / glam `Vec2::floor`.
`Int` division `/` in Lean is Euclidean division, which for the positive
denominator of a `Rat` agrees with floor division. -/
def ratFloor (q : ℚ) : ℤ :=
  q.num / (q.den : ℤ)

/-- Truncation toward zero of a rational: the semantics of Rust's `as i32`
cast from `f32` (for values in range). -/
def ratTrunc (q : ℚ) : ℤ :=
  if 0 ≤ q.num then q.num / (q.den : ℤ) else -((-q.num) / (q.den : ℤ))

/-- Rust `i32` division truncates toward zero; Lean `Int` division is
Euclidean. This models Rust `/` for a positive divisor (the only divisor
used by the source is `2`). -/
def rustDiv (a b : ℤ) : ℤ :=
  if 0 ≤ a then a / b else -((-a) / b)

lemma ratFloor_le (q : ℚ) : (ratFloor q : ℚ) ≤ q := by
  have hd : (0 : ℚ) < (q.den : ℚ) := by exact_mod_cast q.den_pos
  conv_rhs => rw [← Rat.num_div_den q]
  rw [le_div_iff₀ hd]
  have h := Int.ediv_mul_le q.num (b := (q.den : ℤ)) (by exact_mod_cast q.den_pos.ne')
  unfold ratFloor
  exact_mod_cast h

lemma lt_ratFloor_add_one (q : ℚ) : q < ratFloor q + 1 := by
  have hd : (0 : ℚ) < (q.den : ℚ) := by exact_mod_cast q.den_pos
  conv_lhs => rw [← Rat.num_div_den q]
  rw [div_lt_iff₀ hd]
  have h := Int.lt_ediv_add_one_mul_self q.num (b := (q.den : ℤ)) (by exact_mod_cast q.den_pos)
  unfold ratFloor
  exact_mod_cast h

lemma ratFloor_eq_of {q : ℚ} {z : ℤ} (h1 : (z : ℚ) ≤ q) (h2 : q < z + 1) :
    ratFloor q = z := by
  have hle : (ratFloor q : ℚ) ≤ q := ratFloor_le q
  have hlt : q < ratFloor q + 1 := lt_ratFloor_add_one q
  have b1 : z < ratFloor q + 1 := by exact_mod_cast lt_of_le_of_lt h1 hlt
  have b2 : ratFloor q < z + 1 := by exact_mod_cast lt_of_le_of_lt hle h2
  omega

lemma ratFloor_intCast (n : ℤ) : ratFloor ((n : ℚ)) = n :=
  ratFloor_eq_of (le_refl _) (by exact_mod_cast lt_add_one n)

lemma ratFloor_add_intCast (n : ℤ) (q : ℚ) :
    ratFloor ((n : ℚ) + q) = n + ratFloor q := by
  refine ratFloor_eq_of ?_ ?_
  · push_cast
    linarith [ratFloor_le q]
  · push_cast
    linarith [lt_ratFloor_add_one q]

lemma ratTrunc_eq_ratFloor_of_nonneg {q : ℚ} (h : 0 ≤ q) : ratTrunc q = ratFloor q := by
  have hn : 0 ≤ q.num := Rat.num_nonneg.mpr h
  simp [ratTrunc, ratFloor, hn]

lemma ratTrunc_intCast (n : ℤ) : ratTrunc ((n : ℚ)) = n := by
  simp only [ratTrunc, Rat.num_intCast, Rat.den_intCast, Nat.cast_one]
  split <;> omega

/-! ## Data model: `Tile`, `Color`, `Terminal` (src/terminal.rs) -/

/-- Bevy `Color`, reduced to its RGBA components over `ℚ`; the buffer only
stores and copies colors, never computes with them. -/
structure Color where
  r : ℚ
  g : ℚ
  b : ℚ
  a : ℚ
deriving DecidableEq

def Color.WHITE : Color := ⟨1, 1, 1, 1⟩

def Color.BLACK : Color := ⟨0, 0, 0, 1⟩

/-- A single tile of the terminal: glyph plus foreground and background
color (src/terminal.rs, `struct Tile`). -/
structure Tile where
  glyph : Char
  fg_color : Color
  bg_color : Color
deriving DecidableEq

def Tile.DEFAULT_FGCOL : Color := Color.WHITE

def Tile.DEFAULT_BGCOL : Color := Color.BLACK

/-- `impl Default for Tile`: a blank glyph, white foreground, black
background. -/
def Tile.default : Tile :=
  ⟨' ', Tile.DEFAULT_FGCOL, Tile.DEFAULT_BGCOL⟩

/-- The terminal (src/terminal.rs, `struct Terminal`): a flat row-major tile
grid (`sark_grids::Grid`, index `y * width + x`, origin bottom-left), its
size, the clear tile and an optional border. `Border` lives in
src/border.rs (not in the source tree); it is decorative metadata no claim
touches, so it is modelled as an opaque marker. -/
structure Terminal where
  tiles : List Tile
  width : ℕ
  height : ℕ
  clear_tile : Tile
  border : Option Unit

/-- `Terminal::new`: a grid of `Tile::default()` tiles (`Grid::new` fills
with `T::default()`), with `clear_tile = Tile::default()`. -/
def Terminal.new (w h : ℕ) : Terminal :=
  ⟨List.replicate (w * h) Tile.default, w, h, Tile.default, none⟩

/-- Derived `Default for Terminal`: an empty grid of size zero. -/
def Terminal.mkDefault : Terminal :=
  ⟨[], 0, 0, Tile.default, none⟩

def Terminal.size (t : Terminal) : ℕ × ℕ :=
  (t.width, t.height)

/-- `Terminal::clear`: set every tile to the terminal's `clear_tile`. -/
def Terminal.clear (t : Terminal) : Terminal :=
  { t with tiles := t.tiles.map fun _ => t.clear_tile }

/-- `Terminal::with_clear_tile`: store the new clear tile, then `clear()`. -/
def Terminal.with_clear_tile (t : Terminal) (ct : Tile) : Terminal :=
  Terminal.clear { t with clear_tile := ct }

/-- `Terminal::resize`: `self.tiles = Grid::new(size)` — the grid is
reallocated and filled with `Tile::default()` (not with `clear_tile`) —
then the stored size is updated. -/
def Terminal.resize (t : Terminal) (w h : ℕ) : Terminal :=
  { t with tiles := List.replicate (w * h) Tile.default, width := w, height := h }

/-- `Terminal::transform_lti` via `Grid::transform_lti`: row-major flat
index `y * width + x`. -/
def Terminal.transform_lti (t : Terminal) (x y : ℕ) : ℕ :=
  y * t.width + x

def Terminal.in_bounds (t : Terminal) (x y : ℕ) : Prop :=
  x < t.width ∧ y < t.height

/-- `Terminal::get_tile`. The source panics out of bounds; every claim about
an access carries an in-bounds hypothesis, under which the default of
`getD` is never consulted. -/
def Terminal.get_tile (t : Terminal) (x y : ℕ) : Tile :=
  t.tiles.getD (t.transform_lti x y) Tile.default

def Terminal.put_tile (t : Terminal) (x y : ℕ) (tile : Tile) : Terminal :=
  { t with tiles := t.tiles.set (t.transform_lti x y) tile }

def Terminal.get_char (t : Terminal) (x y : ℕ) : Char :=
  (t.get_tile x y).glyph

/-- Modelled from the spec: the formatted tile produced by the
`TileFormatter` trait (src/fmt_tile.rs is not in the source tree). Per the
spec, `put_char(pos, glyph, fg?, bg?)` carries the glyph and the
*explicitly supplied* colors only. -/
structure FmtTile where
  glyph : Char
  fg : Option Color
  bg : Option Color

/-- Modelled from the spec: drawing a formatted tile overwrites the glyph
and any explicitly supplied colors; unspecified colors leave the existing
tile color untouched. -/
def FmtTile.draw_on (f : FmtTile) (old : Tile) : Tile :=
  ⟨f.glyph, f.fg.getD old.fg_color, f.bg.getD old.bg_color⟩

/-- Modelled from the spec: a bare `char` supplies no colors. -/
def charFormat (c : Char) : FmtTile :=
  ⟨c, none, none⟩

/-- `Terminal::put_char`: `writer.format().draw(xy, self)` — the formatted
tile is drawn onto the tile at `xy`. -/
def Terminal.put_char (t : Terminal) (x y : ℕ) (f : FmtTile) : Terminal :=
  let i := t.transform_lti x y
  { t with tiles := t.tiles.set i (f.draw_on (t.tiles.getD i Tile.default)) }

/-- `Terminal::transform_ltw`: `pos - (size - 1) / 2` with Rust `i32`
division (truncation toward zero). -/
def Terminal.transform_ltw (t : Terminal) (p : ℤ × ℤ) : ℤ × ℤ :=
  (p.1 - rustDiv ((t.width : ℤ) - 1) 2, p.2 - rustDiv ((t.height : ℤ) - 1) 2)

/-- `Terminal::transform_wtl`: `pos + size / 2` with Rust `i32` division. -/
def Terminal.transform_wtl (t : Terminal) (p : ℤ × ℤ) : ℤ × ℤ :=
  (p.1 + rustDiv (t.width : ℤ) 2, p.2 + rustDiv (t.height : ℤ) 2)

/-! ## Coordinate transform component (src/to_world.rs) -/

/-- glam `Vec3` over exact rationals. -/
structure Vec3q where
  x : ℚ
  y : ℚ
  z : ℚ
deriving DecidableEq

/-- glam `Vec4` over exact rationals. -/
structure Vec4q where
  x : ℚ
  y : ℚ
  z : ℚ
  w : ℚ
deriving DecidableEq

/-- glam `Mat4` (column axes) over exact rationals. -/
structure Mat4q where
  x_axis : Vec4q
  y_axis : Vec4q
  z_axis : Vec4q
  w_axis : Vec4q
deriving DecidableEq

/-- glam `Mat4::project_point3`: transform the point as a homogeneous
vector (w = 1) and apply perspective division by the resulting w.
Division by a zero w is out of scope for the claims (glam would produce
non-finite floats there). -/
def Mat4q.project_point3 (m : Mat4q) (p : Vec3q) : Vec3q :=
  let rx := m.x_axis.x * p.x + m.y_axis.x * p.y + m.z_axis.x * p.z + m.w_axis.x
  let ry := m.x_axis.y * p.x + m.y_axis.y * p.y + m.z_axis.y * p.z + m.w_axis.y
  let rz := m.x_axis.z * p.x + m.y_axis.z * p.y + m.z_axis.z * p.z + m.w_axis.z
  let rw := m.x_axis.w * p.x + m.y_axis.w * p.y + m.z_axis.w * p.z + m.w_axis.w
  ⟨rx / rw, ry / rw, rz / rw⟩

/-- The `ToWorld` component state (src/to_world.rs). The camera entity and
cached camera position play no part in any conversion claim and are
omitted. The pivot is the `[0,1]²` vector of `layout.pivot`
(`TerminalLayout` lives under the renderer whose layout source is not in
the tree; the spec records the pivot as part of the cached state). -/
structure ToWorld where
  term_size : ℕ × ℕ
  term_pos : Vec3q
  pivot : ℚ × ℚ
  viewport_pos : ℚ × ℚ
  viewport_size : Option (ℚ × ℚ)
  ndc_to_world : Mat4q

/-- `ToWorld::tile_to_world`:
`(tile + term_pos.xy - term_size * pivot)` extended by the terminal's z. -/
def ToWorld.tile_to_world (tw : ToWorld) (tile : ℤ × ℤ) : Vec3q :=
  ⟨(tile.1 : ℚ) + tw.term_pos.x - (tw.term_size.1 : ℚ) * tw.pivot.1,
   (tile.2 : ℚ) + tw.term_pos.y - (tw.term_size.2 : ℚ) * tw.pivot.2,
   tw.term_pos.z⟩

/-- `ToWorld::world_to_tile`:
`floor(world - term_pos.xy + term_size * pivot)`. -/
def ToWorld.world_to_tile (tw : ToWorld) (world : ℚ × ℚ) : ℤ × ℤ :=
  (ratFloor (world.1 - tw.term_pos.x + (tw.term_size.1 : ℚ) * tw.pivot.1),
   ratFloor (world.2 - tw.term_pos.y + (tw.term_size.2 : ℚ) * tw.pivot.2))

/-- `ToWorld::screen_to_world`: requires a resolved viewport; translates by
the viewport origin, normalizes to `[-1,1]` device coordinates, and
unprojects via the cached inverse view-projection matrix at depth `-1`. -/
def ToWorld.screen_to_world (tw : ToWorld) (screen_pos : ℚ × ℚ) : Option (ℚ × ℚ) :=
  match tw.viewport_size with
  | some viewport_size =>
      let sp := (screen_pos.1 - tw.viewport_pos.1, screen_pos.2 - tw.viewport_pos.2)
      let ndc := (sp.1 / viewport_size.1 * 2 - 1, sp.2 / viewport_size.2 * 2 - 1)
      let world_pos := tw.ndc_to_world.project_point3 ⟨ndc.1, ndc.2, -1⟩
      some (world_pos.x, world_pos.y)
  | none => none

/-! ## Helper lemmas on the terminal invariant -/

/-- The flat index of an in-bounds position is a valid index into a
well-formed tile list. -/
lemma Terminal.lti_lt (t : Terminal) (x y : ℕ)
    (ht : t.tiles.length = t.width * t.height)
    (hx : x < t.width) (hy : y < t.height) :
    t.transform_lti x y < t.tiles.length := by
  unfold Terminal.transform_lti
  rw [ht]
  calc y * t.width + x < y * t.width + t.width := Nat.add_lt_add_left hx _
    _ = (y + 1) * t.width := (Nat.succ_mul y t.width).symm
    _ ≤ t.height * t.width := Nat.mul_le_mul_right _ (by omega)
    _ = t.width * t.height := Nat.mul_comm _ _

/-! ## Claim C1 (code bug): resize fills with `Tile::default()`, not the
customized `clear_tile` -/

/-- A terminal whose clear tile was customized to glyph `x`, then resized:
the concrete input on which `resize` diverges from the specified
behaviour. -/
def resizeDemo : Terminal :=
  ((Terminal.new 2 2).with_clear_tile ⟨'x', Tile.DEFAULT_FGCOL, Tile.DEFAULT_BGCOL⟩).resize 3 3

/-- Claim C1: after `resize`, `size()` is the new size, but the buffer is
refilled with `Tile::default()` (via `Grid::new`), not with the customized
`clear_tile` — the resized terminal's tile glyph is the blank default
while its `clear_tile` glyph is still `x`. This exhibits the divergence
between the code and both the spec and `resize`'s own doc comment
("This will clear the terminal"). -/
theorem claim_C1_resize_fills_default_not_clear_tile :
    resizeDemo.size = (3, 3) ∧
    (resizeDemo.get_tile 0 0).glyph = ' ' ∧
    resizeDemo.clear_tile.glyph = 'x' ∧
    (' ' : Char) ≠ 'x' := by
  refine ⟨rfl, ?_, rfl, by decide⟩
  rfl

/-! ## Claims C4 and C5: `put_char` -/

/-- Claim C4: `put_char` with a bare glyph (no explicit colors) overwrites
only the glyph; the tile's foreground and background colors are exactly
what they were before the call. -/
theorem claim_C4_put_char_without_colors_preserves_colors
    (t : Terminal) (x y : ℕ) (g : Char)
    (ht : t.tiles.length = t.width * t.height) (hb : t.in_bounds x y) :
    (t.put_char x y (charFormat g)).get_tile x y =
      ⟨g, (t.get_tile x y).fg_color, (t.get_tile x y).bg_color⟩ := by
  obtain ⟨hx, hy⟩ := hb
  have hi := t.lti_lt x y ht hx hy
  simp only [Terminal.transform_lti] at hi
  simp only [Terminal.put_char, Terminal.get_tile, Terminal.transform_lti]
  generalize t.tiles.getD (y * t.width + x) Tile.default = old
  rw [List.getD_eq_getElem _ _ (by simpa using hi)]
  simp [FmtTile.draw_on, charFormat]

/-- Witness for C4, realizing the spec's sample scenario: after writing an
`a` with explicit blue foreground and red background and then a bare `q`,
the tile keeps the blue foreground and the red background while the glyph
becomes `q`. -/
theorem claim_C4_witness :
    (((Terminal.new 2 2).put_char 0 0 ⟨'a', some ⟨0, 0, 1, 1⟩, some ⟨1, 0, 0, 1⟩⟩).put_char
        0 0 (charFormat 'q')).get_tile 0 0 =
      ⟨'q',
        (((Terminal.new 2 2).put_char 0 0 ⟨'a', some ⟨0, 0, 1, 1⟩, some ⟨1, 0, 0, 1⟩⟩).get_tile
            0 0).fg_color,
        (((Terminal.new 2 2).put_char 0 0 ⟨'a', some ⟨0, 0, 1, 1⟩, some ⟨1, 0, 0, 1⟩⟩).get_tile
            0 0).bg_color⟩ :=
  claim_C4_put_char_without_colors_preserves_colors _ 0 0 'q'
    (by simp [Terminal.new, Terminal.put_char]) ⟨by decide, by decide⟩

/-- Claim C5: for every in-bounds position and glyph, `put_char` followed
by `get_char` at the same position returns that glyph. -/
theorem claim_C5_put_char_get_char_roundtrip
    (t : Terminal) (x y : ℕ) (g : Char)
    (ht : t.tiles.length = t.width * t.height) (hb : t.in_bounds x y) :
    (t.put_char x y (charFormat g)).get_char x y = g := by
  rw [Terminal.get_char,
    claim_C4_put_char_without_colors_preserves_colors t x y g ht hb]

/-- Witness for C5 at a concrete terminal, position and glyph. -/
theorem claim_C5_witness :
    ((Terminal.new 2 2).put_char 1 1 (charFormat 'g')).get_char 1 1 = 'g' :=
  claim_C5_put_char_get_char_roundtrip (Terminal.new 2 2) 1 1 'g'
    (by simp [Terminal.new]) ⟨by decide, by decide⟩

/-! ## Claim C7: `world_to_tile ∘ tile_to_world` is the identity -/

/-- Claim C7: for every transform state and every tile position strictly
inside the buffer bounds, converting to world space and back returns the
same tile position (the in-bounds hypothesis is the claim's; the exact
rational arithmetic cancels for every position). -/
theorem claim_C7_world_to_tile_tile_to_world (tw : ToWorld) (p : ℤ × ℤ)
    (h1 : 0 ≤ p.1) (h2 : p.1 < (tw.term_size.1 : ℤ))
    (h3 : 0 ≤ p.2) (h4 : p.2 < (tw.term_size.2 : ℤ)) :
    tw.world_to_tile ((tw.tile_to_world p).x, (tw.tile_to_world p).y) = p := by
  obtain ⟨px, py⟩ := p
  simp only [ToWorld.tile_to_world, ToWorld.world_to_tile]
  refine Prod.ext ?_ ?_
  · show ratFloor _ = px
    have he :
        (px : ℚ) + tw.term_pos.x - (tw.term_size.1 : ℚ) * tw.pivot.1 - tw.term_pos.x +
            (tw.term_size.1 : ℚ) * tw.pivot.1 = ((px : ℤ) : ℚ) := by
      ring
    rw [he, ratFloor_intCast]
  · show ratFloor _ = py
    have he :
        (py : ℚ) + tw.term_pos.y - (tw.term_size.2 : ℚ) * tw.pivot.2 - tw.term_pos.y +
            (tw.term_size.2 : ℚ) * tw.pivot.2 = ((py : ℤ) : ℚ) := by
      ring
    rw [he, ratFloor_intCast]

/-- A concrete transform state for the C7 witness: a 3×3 terminal placed at
world position (5, 7, 2) with a centered pivot. -/
def toWorldDemo : ToWorld :=
  ⟨(3, 3), ⟨5, 7, 2⟩, (1 / 2, 1 / 2), (0, 0), none,
   ⟨⟨1, 0, 0, 0⟩, ⟨0, 1, 0, 0⟩, ⟨0, 0, 1, 0⟩, ⟨0, 0, 0, 1⟩⟩⟩

/-- Witness for C7 at a concrete transform state and interior position. -/
theorem claim_C7_witness :
    toWorldDemo.world_to_tile
      ((toWorldDemo.tile_to_world (1, 1)).x, (toWorldDemo.tile_to_world (1, 1)).y) = (1, 1) :=
  claim_C7_world_to_tile_tile_to_world toWorldDemo (1, 1)
    (by decide) (by decide) (by decide) (by decide)

/-! ## Claim C10: `transform_wtl ∘ transform_ltw` and the parity offset -/

/-- Claim C10 (amended: both dimensions at least 1): round-tripping a
position through `transform_ltw` then `transform_wtl` adds 1 to a
component exactly when the corresponding dimension is even, so the two
transforms are mutual inverses exactly when both dimensions are odd. -/
theorem claim_C10_wtl_ltw_parity_offset (t : Terminal) (p : ℤ × ℤ)
    (hw : 1 ≤ t.width) (hh : 1 ≤ t.height) :
    t.transform_wtl (t.transform_ltw p) =
      (p.1 + (if t.width % 2 = 0 then 1 else 0),
       p.2 + (if t.height % 2 = 0 then 1 else 0)) := by
  obtain ⟨px, py⟩ := p
  have hwz : (1 : ℤ) ≤ (t.width : ℤ) := by exact_mod_cast hw
  have hhz : (1 : ℤ) ≤ (t.height : ℤ) := by exact_mod_cast hh
  simp only [Terminal.transform_wtl, Terminal.transform_ltw]
  rw [rustDiv, if_pos (by omega), rustDiv, if_pos (by omega),
    rustDiv, if_pos (by omega), rustDiv, if_pos (by omega)]
  refine Prod.ext ?_ ?_ <;> simp only []
  · by_cases he : t.width % 2 = 0 <;> simp only [he, if_true, if_false] <;> omega
  · by_cases he : t.height % 2 = 0 <;> simp only [he, if_true, if_false] <;> omega

/-- Counterexample for C10 as stated: the derived `Default` terminal has
size 0×0 — both dimensions even — yet the round trip is the identity
there (Rust truncating division sends (0−1)/2 to 0), not the claimed
offset of (1, 1). -/
theorem claim_C10_counterexample :
    Terminal.mkDefault.width % 2 = 0 ∧ Terminal.mkDefault.height % 2 = 0 ∧
    Terminal.mkDefault.transform_wtl (Terminal.mkDefault.transform_ltw (0, 0)) = (0, 0) ∧
    ((0 : ℤ), (0 : ℤ)) ≠ ((0 : ℤ) + 1, (0 : ℤ) + 1) := by
  refine ⟨rfl, rfl, ?_, by decide⟩
  decide

/-- Witness for the amended C10 at a concrete even-by-odd terminal. -/
theorem claim_C10_witness :
    (Terminal.new 4 3).transform_wtl ((Terminal.new 4 3).transform_ltw (2, 5)) =
      ((2 : ℤ) + (if (Terminal.new 4 3).width % 2 = 0 then 1 else 0),
       (5 : ℤ) + (if (Terminal.new 4 3).height % 2 = 0 then 1 else 0)) :=
  claim_C10_wtl_ltw_parity_offset (Terminal.new 4 3) (2, 5) (by decide) (by decide)

/-! ## Claim C2: `put_string` anchor/pivot layout arithmetic -/

/-- The topmost written row computed by `put_string`
(src/terminal.rs line 310): `(origin.y as f32 + (h - 1) as f32 * (1.0 -
pivot.y)) as i32` — the anchor row and the fractional offset are summed in
`f32` and then truncated toward zero. -/
def put_string_y0 (origin_y : ℤ) (h : ℕ) (py : ℚ) : ℤ :=
  ratTrunc ((origin_y : ℚ) + ((h : ℚ) - 1) * (1 - py))

/-- The horizontal start of a line computed by `put_string`
(src/terminal.rs line 324): `origin.x - ((len - 1) as f32 * pivot.x) as
i32`. The source computes `len - 1` in `usize`, which underflows for an
empty line; the claims only involve `len ≥ 1`, where this model agrees. -/
def put_string_x0 (origin_x : ℤ) (len : ℕ) (px : ℚ) : ℤ :=
  origin_x - ratTrunc (((len : ℚ) - 1) * px)

/-- Stated from the spec's words: rounding half away from zero, the rule
the claim says the pivot arithmetic uses. -/
def specRoundHalfAwayFromZero (q : ℚ) : ℤ :=
  if 0 ≤ q then ratFloor (q + 1 / 2) else -(ratFloor (-q + 1 / 2))

/-- Counterexample for C2 as stated: at anchor row 0 with two lines and
pivot y = 1/2, the code places the topmost row at 0 (truncation), while
the claimed round-half-away-from-zero formula gives 1. -/
theorem claim_C2_counterexample :
    put_string_y0 0 2 (1 / 2) = 0 ∧
    (0 : ℤ) + specRoundHalfAwayFromZero (((2 : ℚ) - 1) * (1 - 1 / 2)) = 1 ∧
    (0 : ℤ) ≠ 1 := by
  refine ⟨?_, ?_, by decide⟩
  · have h1 : ((0 : ℤ) : ℚ) + (((2 : ℕ) : ℚ) - 1) * (1 - 1 / 2) = 1 / 2 := by norm_num
    rw [put_string_y0, h1, ratTrunc_eq_ratFloor_of_nonneg (by norm_num)]
    exact ratFloor_eq_of (by norm_num) (by norm_num)
  · have h1 : ((2 : ℚ) - 1) * (1 - 1 / 2) = 1 / 2 := by norm_num
    rw [h1, specRoundHalfAwayFromZero, if_pos (by norm_num)]
    have h2 : (1 : ℚ) / 2 + 1 / 2 = ((1 : ℤ) : ℚ) := by norm_num
    rw [h2, ratFloor_intCast]
    decide

/-- Claim C2 (amended): the layout arithmetic truncates toward zero rather
than rounding half away from zero; the vertical offset is truncated
together with the anchor row. For pivots in `[0,1]²`, at least one line,
non-empty lines and a non-negative anchor row this equals the claimed
formulas with floor in place of round: the topmost row is
`anchor.y + floor((h-1)*(1-py))` and a line starts at
`anchor.x - floor((len-1)*px)`. -/
theorem claim_C2_layout_truncates (origin : ℤ × ℤ) (h : ℕ) (py px : ℚ) (len : ℕ)
    (hh : 1 ≤ h) (hpy0 : 0 ≤ py) (hpy1 : py ≤ 1) (hoy : 0 ≤ origin.2)
    (hlen : 1 ≤ len) (hpx0 : 0 ≤ px) (hpx1 : px ≤ 1) :
    put_string_y0 origin.2 h py = origin.2 + ratFloor (((h : ℚ) - 1) * (1 - py)) ∧
    put_string_x0 origin.1 len px = origin.1 - ratFloor (((len : ℚ) - 1) * px) := by
  have hhq : (1 : ℚ) ≤ (h : ℚ) := by exact_mod_cast hh
  have hlq : (1 : ℚ) ≤ (len : ℚ) := by exact_mod_cast hlen
  have hyq : (0 : ℚ) ≤ ((origin.2 : ℤ) : ℚ) := by exact_mod_cast hoy
  have hqy : (0 : ℚ) ≤ ((h : ℚ) - 1) * (1 - py) := by
    apply mul_nonneg <;> linarith
  have hqx : (0 : ℚ) ≤ ((len : ℚ) - 1) * px := by
    apply mul_nonneg <;> linarith
  constructor
  · rw [put_string_y0, ratTrunc_eq_ratFloor_of_nonneg (add_nonneg hyq hqy),
      ratFloor_add_intCast]
  · rw [put_string_x0, ratTrunc_eq_ratFloor_of_nonneg hqx]

/-- Witness for the amended C2 at a concrete anchor, line count, line
length and the two corner pivots 0 and 1. -/
theorem claim_C2_witness :
    put_string_y0 3 2 0 = 3 + ratFloor (((2 : ℚ) - 1) * (1 - 0)) ∧
    put_string_x0 5 2 1 = 5 - ratFloor (((2 : ℚ) - 1) * 1) :=
  claim_C2_layout_truncates (5, 3) 2 0 1 2 (by decide) (le_refl 0) zero_le_one
    (by decide) (by decide) zero_le_one (le_refl 1)

/-! ## Glyph atlas map (src/renderer/uv_mapping.rs) -/

/-- A UV quad: the four corners in the winding order the source emits
(origin, origin+up, origin+right, origin+up+right). -/
structure Quad where
  c0 : ℚ × ℚ
  c1 : ℚ × ℚ
  c2 : ℚ × ℚ
  c3 : ℚ × ℚ
deriving DecidableEq

/-- `UvMapping::get_grid_uvs`: cell `xy` of a `tile_count` grid gets the
quad with origin `uv_size * xy` and corners origin, origin+up,
origin+right, origin+up+right, where `uv_size = (1/cols, 1/rows)`. -/
def UvMapping.get_grid_uvs (xy : ℕ × ℕ) (tile_count : ℕ × ℕ) : Quad :=
  let uv_size : ℚ × ℚ := (1 / (tile_count.1 : ℚ), 1 / (tile_count.2 : ℚ))
  let right : ℚ × ℚ := (uv_size.1, 0)
  let up : ℚ × ℚ := (0, uv_size.2)
  let origin : ℚ × ℚ := (uv_size.1 * (xy.1 : ℚ), uv_size.2 * (xy.2 : ℚ))
  ⟨origin,
   (origin.1 + up.1, origin.2 + up.2),
   (origin.1 + right.1, origin.2 + right.2),
   (origin.1 + up.1 + right.1, origin.2 + up.2 + right.2)⟩

/-- The `HashMap` of the atlas, as a function; `insert` overwrites. -/
def insertUv (m : Char → Option Quad) (ch : Char) (q : Quad) : Char → Option Quad :=
  fun c => if c = ch then some q else m c

/-- The build loop of `UvMapping::from_grid`: for the `i`-th glyph of the
ordering, insert the quad of grid cell `(i % cols, i / cols)`. -/
def fromGridGo (tile_count : ℕ × ℕ) (m : Char → Option Quad) (i : ℕ) :
    List Char → (Char → Option Quad)
  | [] => m
  | ch :: rest =>
      fromGridGo tile_count
        (insertUv m ch (UvMapping.get_grid_uvs (i % tile_count.1, i / tile_count.1) tile_count))
        (i + 1) rest

/-- `UvMapping::from_grid`: enumerate the ordering from index 0 into an
initially empty map. -/
def UvMapping.from_grid (tile_count : ℕ × ℕ) (ordering : List Char) : Char → Option Quad :=
  fromGridGo tile_count (fun _ => none) 0 ordering

/-- The observable outcome of `UvMapping::uvs_from_glyph`: either the uvs,
or the `panic!` branch (which aborts with a message naming the glyph). -/
inductive UvLookup where
  | uvs (q : Quad)
  | panicked (ch : Char)
deriving DecidableEq

/-- `UvMapping::uvs_from_glyph`: `uv_map.get(&ch).unwrap_or_else(|| panic!(...))`. -/
def UvMapping.uvs_from_glyph (m : Char → Option Quad) (ch : Char) : UvLookup :=
  match m ch with
  | some q => UvLookup.uvs q
  | none => UvLookup.panicked ch

lemma fromGridGo_not_mem (tc : ℕ × ℕ) (m : Char → Option Quad) (i : ℕ)
    (l : List Char) (c : Char) (hc : c ∉ l) :
    fromGridGo tc m i l c = m c := by
  induction l generalizing m i with
  | nil => rfl
  | cons a rest ih =>
      simp only [List.mem_cons, not_or] at hc
      simp only [fromGridGo]
      rw [ih _ _ hc.2]
      simp [insertUv, hc.1]

lemma fromGridGo_get (tc : ℕ × ℕ) (l : List Char) (hnd : l.Nodup)
    (m : Char → Option Quad) (i k : ℕ) (hk : k < l.length) :
    fromGridGo tc m i l (l.get ⟨k, hk⟩) =
      some (UvMapping.get_grid_uvs ((i + k) % tc.1, (i + k) / tc.1) tc) := by
  induction l generalizing m i k with
  | nil => simp at hk
  | cons a rest ih =>
      cases k with
      | zero =>
          have ha : a ∉ rest := (List.nodup_cons.mp hnd).1
          simp only [fromGridGo, List.get]
          rw [fromGridGo_not_mem _ _ _ _ _ ha]
          simp [insertUv]
      | succ k2 =>
          have hr : rest.Nodup := (List.nodup_cons.mp hnd).2
          simp only [fromGridGo, List.get]
          rw [ih hr _ (i + 1) k2 (by simpa using hk)]
          have he : i + 1 + k2 = i + (k2 + 1) := by omega
          rw [he]

lemma fromGridGo_mem (tc : ℕ × ℕ) (m : Char → Option Quad) (i : ℕ)
    (l : List Char) (c : Char) (hc : c ∈ l) :
    ∃ q, fromGridGo tc m i l c = some q := by
  induction l generalizing m i with
  | nil => simp at hc
  | cons a rest ih =>
      by_cases hr : c ∈ rest
      · simp only [fromGridGo]
        exact ih _ _ hr
      · have hca : c = a := by
          rcases List.mem_cons.mp hc with h | h
          · exact h
          · exact absurd h hr
        simp only [fromGridGo]
        rw [fromGridGo_not_mem _ _ _ _ _ hr]
        exact ⟨UvMapping.get_grid_uvs (i % tc.1, i / tc.1) tc, by simp [insertUv, hca]⟩

/-- Claim C6: in a build over a duplicate-free ordering, the glyph at
ordering index `k` is mapped to the quad of grid cell
`(k % cols, k / cols)` — whose corners are origin, origin+up,
origin+right, origin+up+right by construction — and concretely, on a
16×16 grid, index 0 yields origin (0,0) with opposite corner
(1/16, 1/16). -/
theorem claim_C6_atlas_uv_assignment (tc : ℕ × ℕ) (ordering : List Char) (k : ℕ)
    (hnd : ordering.Nodup) (hk : k < ordering.length) :
    UvMapping.from_grid tc ordering (ordering.getD k ' ') =
      some (UvMapping.get_grid_uvs (k % tc.1, k / tc.1) tc) ∧
    UvMapping.get_grid_uvs (0, 0) (16, 16) =
      ⟨(0, 0), (0, 1 / 16), (1 / 16, 0), (1 / 16, 1 / 16)⟩ := by
  constructor
  · rw [List.getD_eq_getElem _ _ hk]
    have := fromGridGo_get tc ordering hnd (fun _ => none) 0 k hk
    simpa [UvMapping.from_grid, List.get_eq_getElem] using this
  · simp only [UvMapping.get_grid_uvs, Quad.mk.injEq, Prod.mk.injEq]
    norm_num

/-- Witness for C6: a concrete 3-glyph ordering on a 2×2 grid, index 2. -/
theorem claim_C6_witness :
    UvMapping.from_grid (2, 2) ['a', 'b', 'c'] (['a', 'b', 'c'].getD 2 ' ') =
      some (UvMapping.get_grid_uvs (2 % 2, 2 / 2) (2, 2)) ∧
    UvMapping.get_grid_uvs (0, 0) (16, 16) =
      ⟨(0, 0), (0, 1 / 16), (1 / 16, 0), (1 / 16, 1 / 16)⟩ :=
  claim_C6_atlas_uv_assignment (2, 2) ['a', 'b', 'c'] 2 (by decide) (by decide)

/-- Counterexample for C3 as stated: looking up a glyph missing from the
ordering hits the `panic!` branch — an unrecoverable abort — rather than
returning any recoverable `MissingGlyphError` value (no such type exists
in the source). -/
theorem claim_C3_counterexample :
    UvMapping.uvs_from_glyph (UvMapping.from_grid (2, 2) ['a', 'b']) 'z' =
      UvLookup.panicked 'z' := by
  rfl

/-- Claim C3 (amended): for every glyph absent from the build ordering the
UV lookup panics with a message naming the glyph (no fallback glyph is
substituted, no recoverable error value is returned), and for every glyph
present in the ordering the lookup succeeds with its quad. -/
theorem claim_C3_uv_lookup_panics (tc : ℕ × ℕ) (ordering : List Char) (ch : Char) :
    (ch ∉ ordering →
      UvMapping.uvs_from_glyph (UvMapping.from_grid tc ordering) ch = UvLookup.panicked ch) ∧
    (ch ∈ ordering →
      ∃ q, UvMapping.uvs_from_glyph (UvMapping.from_grid tc ordering) ch = UvLookup.uvs q) := by
  constructor
  · intro h
    simp only [UvMapping.uvs_from_glyph, UvMapping.from_grid]
    rw [fromGridGo_not_mem _ _ _ _ _ h]
  · intro h
    obtain ⟨q, hq⟩ := fromGridGo_mem tc (fun _ => none) 0 ordering ch h
    exact ⟨q, by simp [UvMapping.uvs_from_glyph, UvMapping.from_grid, hq]⟩

/-- Witness for the amended C3: a missing glyph panics, a present glyph
succeeds, on a concrete two-glyph atlas. -/
theorem claim_C3_witness :
    UvMapping.uvs_from_glyph (UvMapping.from_grid (2, 2) ['a', 'b']) 'q' =
      UvLookup.panicked 'q' ∧
    ∃ q, UvMapping.uvs_from_glyph (UvMapping.from_grid (2, 2) ['a', 'b']) 'a' =
      UvLookup.uvs q :=
  ⟨(claim_C3_uv_lookup_panics (2, 2) ['a', 'b'] 'q').1 (by decide),
   (claim_C3_uv_lookup_panics (2, 2) ['a', 'b'] 'a').2 (by decide)⟩

/-! ## Claim C8: `screen_to_world` -/

/-- Modelled from the spec's words (§4.4): `screen_to_world` requires a
resolved viewport, translates the screen position by the viewport origin,
normalizes to `[-1,1]` device coordinates, unprojects through the cached
inverse view-projection matrix, and is `None` while no viewport is
resolved. -/
def specScreenToWorld (tw : ToWorld) (screen_pos : ℚ × ℚ) : Option (ℚ × ℚ) :=
  match tw.viewport_size with
  | none => none
  | some vs =>
      let translated := (screen_pos.1 - tw.viewport_pos.1, screen_pos.2 - tw.viewport_pos.2)
      let ndc := (translated.1 / vs.1 * 2 - 1, translated.2 / vs.2 * 2 - 1)
      let unprojected := tw.ndc_to_world.project_point3 ⟨ndc.1, ndc.2, -1⟩
      some (unprojected.x, unprojected.y)

/-- Claim C8: `screen_to_world` agrees with the spec's description, and in
particular returns an absent result exactly when no viewport size has
been resolved yet. -/
theorem claim_C8_screen_to_world_viewport (tw : ToWorld) (screen_pos : ℚ × ℚ) :
    tw.screen_to_world screen_pos = specScreenToWorld tw screen_pos ∧
    (tw.screen_to_world screen_pos = none ↔ tw.viewport_size = none) := by
  constructor
  · cases h : tw.viewport_size <;>
      simp [ToWorld.screen_to_world, specScreenToWorld, h]
  · cases h : tw.viewport_size <;>
      simp [ToWorld.screen_to_world, h]

/-! ## String operations on the terminal (src/terminal.rs) -/

/-- `Terminal::get_string`: the glyphs of `slice()[i..].iter().take(len)` —
a read of `len` tiles starting at the flat index of `xy`, capped at the
end of the buffer. Returned as the list of glyphs. -/
def Terminal.get_string (t : Terminal) (x y : ℕ) (len : ℕ) : List Char :=
  ((t.tiles.drop (t.transform_lti x y)).take len).map fun tile => tile.glyph

/-- `Terminal::clear_string`: overwrite `slice_mut()[i..].iter_mut().take(len)`
with the terminal's `clear_tile`; the untouched prefix and suffix are kept. -/
def Terminal.clear_string (t : Terminal) (x y : ℕ) (len : ℕ) : Terminal :=
  let i := t.transform_lti x y
  { t with tiles :=
      t.tiles.take i ++ ((t.tiles.drop i).take len).map (fun _ => t.clear_tile) ++
        (t.tiles.drop i).drop len }

/-- The inner write of `put_string`: `line.chars().zip(slice_mut()[j..].take(len))`,
each zipped tile getting the character's glyph and then the formatting
applied (explicitly supplied colors only — the `fmt.apply` step is
modelled from the spec, `StringFormatter` not being in the source tree). -/
def writeLineTiles (tiles : List Tile) (j : ℕ) (chars : List Char) (len : ℕ)
    (fg bg : Option Color) : List Tile :=
  tiles.take j ++
    List.zipWith (fun c old => FmtTile.draw_on ⟨c, fg, bg⟩ old) chars
      ((tiles.drop j).take len) ++
    (tiles.drop j).drop (min chars.length len)

/-- The per-line loop of `put_string`: while the target row is inside the
vertical bounds, write the line at `x0(len)` on row `y` and recurse one
row down; leaving the bounds breaks out of the loop. The flat index is
converted as the source converts to `usize` (claims only exercise
non-negative indices, where `toNat` is exact). -/
def Terminal.putLines (origin_x : ℤ) (px : ℚ) (fg bg : Option Color) :
    Terminal → ℤ → List (List Char) → Terminal
  | t, _, [] => t
  | t, y, line :: rest =>
      if y < 0 ∨ (t.height : ℤ) - 1 < y then t
      else
        let len := min line.length t.width
        let j := (y * (t.width : ℤ) + put_string_x0 origin_x len px).toNat
        Terminal.putLines origin_x px fg bg
          { t with tiles := writeLineTiles t.tiles j line len fg bg } (y - 1) rest

/-- `Terminal::put_string`, after the external `pivoted_point` call: from
the resolved origin and pivot, compute the top row `y0` and write the
lines downward. The text is the list of its lines (`string.lines()`). -/
def Terminal.put_string (t : Terminal) (origin : ℤ × ℤ) (px py : ℚ)
    (lines : List (List Char)) (fg bg : Option Color) : Terminal :=
  Terminal.putLines origin.1 px fg bg t (put_string_y0 origin.2 lines.length py) lines

/-! ### Flat-index lemmas for the spliced writes -/

lemma getD_drop {α : Type} (l : List α) (i k : ℕ) (d : α) (h : i + k < l.length) :
    (l.drop i).getD k d = l.getD (i + k) d := by
  rw [List.getD_eq_getElem _ _ (by simp; omega), List.getD_eq_getElem _ _ h]
  simp [List.getElem_drop]

lemma getD_take {α : Type} (l : List α) (i k : ℕ) (d : α) (h1 : k < i)
    (h2 : k < l.length) :
    (l.take i).getD k d = l.getD k d := by
  rw [List.getD_eq_getElem _ _ (by simp; omega), List.getD_eq_getElem _ _ h2]
  simp [List.getElem_take]

/-- Reading back an in-place overwrite of the window `[i, i+len)` of a
list: inside the (end-capped) window the replacement is seen, outside the
original list is seen. -/
lemma splice_getD {α : Type} (T B : List α) (i len m : ℕ) (d : α)
    (hi : i ≤ T.length) (hB : B.length = min len (T.length - i)) (hm : m < T.length) :
    (T.take i ++ B ++ T.drop (i + len)).getD m d =
      if i ≤ m ∧ m < i + B.length then B.getD (m - i) d else T.getD m d := by
  have hA : (T.take i).length = i := by rw [List.length_take]; omega
  by_cases h1 : m < i
  · rw [List.append_assoc, List.getD_append _ _ _ _ (by omega)]
    rw [if_neg (by omega)]
    exact getD_take T i m d h1 hm
  · by_cases h2 : m < i + B.length
    · rw [List.append_assoc, List.getD_append_right _ _ _ _ (by omega), hA,
        List.getD_append _ _ _ _ (by omega)]
      rw [if_pos ⟨by omega, h2⟩]
    · have hBlen : B.length = len := by omega
      rw [List.append_assoc, List.getD_append_right _ _ _ _ (by omega), hA,
        List.getD_append_right _ _ _ _ (by omega)]
      rw [if_neg (by omega)]
      rw [getD_drop _ _ _ _ (by omega)]
      have he : i + len + (m - i - B.length) = m := by omega
      rw [he]

/-- Reading back the zipped line write. -/
lemma zip_window_getD (T : List Tile) (chars : List Char) (j len k : ℕ)
    (fg bg : Option Color)
    (hk : k < min chars.length (min len (T.length - j))) :
    (List.zipWith (fun c old => FmtTile.draw_on ⟨c, fg, bg⟩ old) chars
        ((T.drop j).take len)).getD k Tile.default =
      FmtTile.draw_on ⟨chars.getD k ' ', fg, bg⟩ (T.getD (j + k) Tile.default) := by
  rw [List.getD_eq_getElem _ _ (by simp [List.length_zipWith]; omega)]
  rw [List.getElem_zipWith]
  rw [List.getD_eq_getElem chars _ (by omega), List.getD_eq_getElem T _ (by omega)]
  congr 1
  simp [List.getElem_take, List.getElem_drop]

lemma writeLineTiles_getD (T : List Tile) (j len m : ℕ) (chars : List Char)
    (fg bg : Option Color) (hj : j ≤ T.length) (hlen : len ≤ chars.length)
    (hm : m < T.length) :
    (writeLineTiles T j chars len fg bg).getD m Tile.default =
      if j ≤ m ∧ m < j + min len (T.length - j) then
        FmtTile.draw_on ⟨chars.getD (m - j) ' ', fg, bg⟩ (T.getD m Tile.default)
      else T.getD m Tile.default := by
  have hminlen : min chars.length len = len := by omega
  have hBlen : (List.zipWith (fun c old => FmtTile.draw_on ⟨c, fg, bg⟩ old) chars
      ((T.drop j).take len)).length = min len (T.length - j) := by
    simp [List.length_zipWith]
    omega
  simp only [writeLineTiles, hminlen]
  rw [List.drop_drop]
  rw [splice_getD _ _ j len m Tile.default hj hBlen hm]
  by_cases hc : j ≤ m ∧ m < j + min len (T.length - j)
  · rw [if_pos (by rw [hBlen]; exact hc), if_pos hc]
    rw [zip_window_getD T chars j len (m - j) fg bg (by omega)]
    have he : j + (m - j) = m := by omega
    rw [he]
  · rw [if_neg (by rw [hBlen]; exact hc), if_neg hc]

/-- `put_string` of a single line at pivot zero resolves to a single
line write at the flat index of the origin. -/
lemma put_string_single (t : Terminal) (x y : ℕ) (chars : List Char)
    (fg bg : Option Color) (hx : x < t.width) (hy : y < t.height) :
    t.put_string ((x : ℤ), (y : ℤ)) 0 0 [chars] fg bg =
      { t with tiles :=
          writeLineTiles t.tiles (y * t.width + x) chars (min chars.length t.width) fg bg } := by
  have hy0 : put_string_y0 (y : ℤ) ([chars].length) 0 = (y : ℤ) := by
    unfold put_string_y0
    have he : ((y : ℤ) : ℚ) + ((([chars].length : ℕ) : ℚ) - 1) * (1 - 0) = ((y : ℤ) : ℚ) := by
      simp only [List.length_cons, List.length_nil]
      push_cast
      ring
    rw [he, ratTrunc_intCast]
  have hx0 : put_string_x0 (x : ℤ) (min chars.length t.width) 0 = (x : ℤ) := by
    unfold put_string_x0
    have he : (((min chars.length t.width : ℕ) : ℚ) - 1) * 0 = ((0 : ℤ) : ℚ) := by
      push_cast
      ring
    rw [he, ratTrunc_intCast]
    omega
  have hj : ((y : ℤ) * (t.width : ℤ) + (x : ℤ)).toNat = y * t.width + x := by
    rw [show (y : ℤ) * (t.width : ℤ) + (x : ℤ) = ((y * t.width + x : ℕ) : ℤ) by push_cast; ring,
      Int.toNat_natCast]
  simp only [Terminal.put_string, Terminal.putLines, hy0, hx0, hj]
  rw [if_neg (by omega)]

lemma get_string_getD (t : Terminal) (x y len k : ℕ)
    (hk : k < min len (t.tiles.length - t.transform_lti x y)) :
    (t.get_string x y len).getD k ' ' =
      (t.tiles.getD (t.transform_lti x y + k) Tile.default).glyph := by
  rw [Terminal.get_string]
  rw [List.getD_eq_getElem _ _ (by simp; omega)]
  rw [List.getD_eq_getElem _ _ (by omega)]
  simp [List.getElem_take, List.getElem_drop]

lemma clear_string_getD (t : Terminal) (x y len m : ℕ)
    (ht : t.tiles.length = t.width * t.height) (hx : x < t.width) (hy : y < t.height)
    (hm : m < t.tiles.length) :
    (t.clear_string x y len).tiles.getD m Tile.default =
      if t.transform_lti x y ≤ m ∧ m < t.transform_lti x y + len then t.clear_tile
      else t.tiles.getD m Tile.default := by
  have hi := t.lti_lt x y ht hx hy
  simp only [Terminal.clear_string]
  rw [List.drop_drop]
  have hBlen : (((t.tiles.drop (t.transform_lti x y)).take len).map
      (fun _ => t.clear_tile)).length = min len (t.tiles.length - t.transform_lti x y) := by
    simp
  rw [splice_getD _ _ (t.transform_lti x y) len m Tile.default (by omega) hBlen hm]
  rw [hBlen]
  by_cases hc : t.transform_lti x y ≤ m ∧ m < t.transform_lti x y + len
  · rw [if_pos (by omega), if_pos hc]
    rw [List.getD_eq_getElem _ _ (by simp; omega)]
    simp
  · rw [if_neg (by omega), if_neg hc]

/-- Claim C9: the string operations address tiles by flat row-major index
from the start position. Reading continues at column 0 of the next row up
when the requested length passes the row edge (the k-th glyph read is the
tile at column (x+k) mod w of row y + (x+k) div w) and silently stops at
the last tile of the buffer (the result length is capped at the tiles
remaining); clearing and single-line writing at pivot zero touch exactly
the flat-index window `[i, i+len)` intersected with the buffer, wrapping
across row ends the same way. -/
theorem claim_C9_strings_flat_row_major (t : Terminal) (x y : ℕ)
    (ht : t.tiles.length = t.width * t.height) (hb : t.in_bounds x y) :
    (∀ len : ℕ,
      (t.get_string x y len).length = min len (t.tiles.length - t.transform_lti x y) ∧
      ∀ k : ℕ, k < (t.get_string x y len).length →
        (t.get_string x y len).getD k ' ' =
          t.get_char ((x + k) % t.width) (y + (x + k) / t.width)) ∧
    (∀ len m : ℕ, m < t.tiles.length →
      (t.clear_string x y len).tiles.getD m Tile.default =
        if t.transform_lti x y ≤ m ∧ m < t.transform_lti x y + len then t.clear_tile
        else t.tiles.getD m Tile.default) ∧
    (∀ (chars : List Char) (fg bg : Option Color) (m : ℕ), m < t.tiles.length →
      (t.put_string ((x : ℤ), (y : ℤ)) 0 0 [chars] fg bg).tiles.getD m Tile.default =
        if t.transform_lti x y ≤ m ∧ m < t.transform_lti x y + min chars.length t.width then
          FmtTile.draw_on ⟨chars.getD (m - t.transform_lti x y) ' ', fg, bg⟩
            (t.tiles.getD m Tile.default)
        else t.tiles.getD m Tile.default) := by
  obtain ⟨hx, hy⟩ := hb
  have hi := t.lti_lt x y ht hx hy
  refine ⟨?_, ?_, ?_⟩
  · intro len
    constructor
    · simp [Terminal.get_string]
    · intro k hk
      have hklen : k < min len (t.tiles.length - t.transform_lti x y) := by
        simpa [Terminal.get_string] using hk
      rw [get_string_getD t x y len k hklen, Terminal.get_char, Terminal.get_tile]
      simp only [Terminal.transform_lti] at *
      have hdm := Nat.div_add_mod (x + k) t.width
      have he : (y + (x + k) / t.width) * t.width + (x + k) % t.width = y * t.width + x + k := by
        calc (y + (x + k) / t.width) * t.width + (x + k) % t.width
            = y * t.width + (t.width * ((x + k) / t.width) + (x + k) % t.width) := by ring
          _ = y * t.width + (x + k) := by rw [hdm]
          _ = y * t.width + x + k := by ring
      rw [he]
  · intro len m hm
    exact clear_string_getD t x y len m ht hx hy hm
  · intro chars fg bg m hm
    rw [put_string_single t x y chars fg bg hx hy]
    simp only [Terminal.transform_lti] at *
    have hgoal := writeLineTiles_getD t.tiles (y * t.width + x) (min chars.length t.width) m
      chars fg bg (by omega) (min_le_left _ _) hm
    rw [hgoal]
    have hAB : (y * t.width + x ≤ m ∧
        m < y * t.width + x + min (min chars.length t.width) (t.tiles.length - (y * t.width + x)))
        ↔ (y * t.width + x ≤ m ∧ m < y * t.width + x + min chars.length t.width) := by
      omega
    simp only [hAB]

/-- Witness for C9: a concrete 3×2 terminal, start position (1, 0). -/
theorem claim_C9_witness :
    (∀ len : ℕ,
      ((Terminal.new 3 2).get_string 1 0 len).length =
        min len ((Terminal.new 3 2).tiles.length - (Terminal.new 3 2).transform_lti 1 0) ∧
      ∀ k : ℕ, k < ((Terminal.new 3 2).get_string 1 0 len).length →
        ((Terminal.new 3 2).get_string 1 0 len).getD k ' ' =
          (Terminal.new 3 2).get_char ((1 + k) % (Terminal.new 3 2).width)
            (0 + (1 + k) / (Terminal.new 3 2).width)) ∧
    (∀ len m : ℕ, m < (Terminal.new 3 2).tiles.length →
      ((Terminal.new 3 2).clear_string 1 0 len).tiles.getD m Tile.default =
        if (Terminal.new 3 2).transform_lti 1 0 ≤ m ∧
            m < (Terminal.new 3 2).transform_lti 1 0 + len then (Terminal.new 3 2).clear_tile
        else (Terminal.new 3 2).tiles.getD m Tile.default) ∧
    (∀ (chars : List Char) (fg bg : Option Color) (m : ℕ),
      m < (Terminal.new 3 2).tiles.length →
      ((Terminal.new 3 2).put_string ((1 : ℤ), (0 : ℤ)) 0 0 [chars] fg bg).tiles.getD m
          Tile.default =
        if (Terminal.new 3 2).transform_lti 1 0 ≤ m ∧
            m < (Terminal.new 3 2).transform_lti 1 0 + min chars.length (Terminal.new 3 2).width
          then
          FmtTile.draw_on ⟨chars.getD (m - (Terminal.new 3 2).transform_lti 1 0) ' ', fg, bg⟩
            ((Terminal.new 3 2).tiles.getD m Tile.default)
        else (Terminal.new 3 2).tiles.getD m Tile.default) :=
  claim_C9_strings_flat_row_major (Terminal.new 3 2) 1 0 (by simp [Terminal.new])
    ⟨by decide, by decide⟩
